import Mathlib

/-!
Verification of the resilient media-acquisition and transcoding server
(`server.js` of the youtube-downloader repository).  The definitions below are
a shallow embedding of the server's pure decision logic: the format catalog
builder, the TTL catalog cache, the retry-with-backoff wrapper around upstream
calls, and the control flow of the download route (header construction, stream
plans, error classification, teardown on disconnect and on error).
-/

namespace YTServer

/-! ### JavaScript string helpers -/

/-- Does the character list begin with the pattern?  Models the prefix test
used by the substring search below. -/
def startsWithL : List Char → List Char → Bool
  | _, [] => true
  | [], _ :: _ => false
  | c :: cs, p :: ps => c == p && startsWithL cs ps

/-- Substring search over character lists (models JavaScript
`String.prototype.includes`). -/
def hasSubL (pat : List Char) : List Char → Bool
  | [] => pat.isEmpty
  | c :: cs => startsWithL (c :: cs) pat || hasSubL pat cs

/-- `strIncludes s pat` models the JavaScript expression `s.includes(pat)`. -/
def strIncludes (s pat : String) : Bool :=
  hasSubL pat.data s.data

/-- Numeric value of a list of decimal digit characters. -/
def digitsVal (ds : List Char) : Nat :=
  ds.foldl (fun n c => n * 10 + (c.toNat - '0'.toNat)) 0

/-- Models JavaScript `parseInt` on the strings that occur as quality labels
and itag selectors: reads the leading run of decimal digits; returns `none`
(JavaScript `NaN`) if there is none. -/
def jsParseInt (s : String) : Option Nat :=
  let ds := s.data.takeWhile Char.isDigit
  if ds.isEmpty then none else some (digitsVal ds)

/-- Models `parseInt(x) || 0` applied to an optional string field
(`parseInt(undefined)` is `NaN`, and `NaN || 0` is `0`). -/
def jsParseIntOr0 : Option String → Nat
  | none => 0
  | some s => (jsParseInt s).getD 0

/-- A query-string value is falsy exactly when it is absent or empty
(models the `!url || !itag` guard on `req.query` strings). -/
def jsFalsy : Option String → Bool
  | none => true
  | some s => s == ""

/-! ### Upstream retry logic (`getVideoInfoWithRetry` / `getVideoStreamWithRetry`) -/

def MAX_RETRIES : Nat := 3

def INITIAL_RETRY_DELAY : Nat := 1000

/-- The rate-limiting signal the server looks for inside upstream error
messages: `error.message.includes('Status code: 429')`. -/
def rateLimitSignal : String := "Status code: 429"

/-- Result of one upstream attempt: success or an error carrying a message. -/
inductive Outcome (α : Type) where
  | ok (val : α)
  | err (message : String)
deriving DecidableEq, Repr

/-- The transient-failure test of the retry wrappers. -/
def isTransient (m : String) : Bool :=
  strIncludes m rateLimitSignal

/-- The retry loop of `getVideoInfoWithRetry` and `getVideoStreamWithRetry`,
with the sequence of upstream attempt outcomes supplied as a function of the
attempt index.  Returns the surfaced outcome together with the list of delays
(in milliseconds) slept between attempts, in order. -/
def retryGo (u : Nat → Outcome α) (retryCount : Nat) : Outcome α × List Nat :=
  match u retryCount with
  | .ok v => (.ok v, [])
  | .err m =>
    if isTransient m then
      if _h : retryCount < MAX_RETRIES then
        ((retryGo u (retryCount + 1)).1,
          INITIAL_RETRY_DELAY * 2 ^ retryCount :: (retryGo u (retryCount + 1)).2)
      else (.err m, [])
    else (.err m, [])
termination_by MAX_RETRIES - retryCount
decreasing_by omega

/-- Entry point of the retry wrappers: first call has `retryCount = 0`. -/
def retryFromStart (u : Nat → Outcome α) : Outcome α × List Nat :=
  retryGo u 0

/-- The error classification performed by the `/video-info` route handler:
a message carrying the rate-limit signal is surfaced as a 429, anything else
as a 400.  The 429 classification is the spec's `UpstreamUnavailable` tag. -/
inductive ErrorTag where
  | UpstreamUnavailable
  | OtherError
deriving DecidableEq, Repr

def errorTag (m : String) : ErrorTag :=
  if isTransient m then .UpstreamUnavailable else .OtherError

/-! ### Raw upstream metadata and the format catalog builder -/

/-- One entry of `info.formats` in the raw upstream metadata response, with
the fields the server reads.  Optional fields model properties that may be
absent (JavaScript `undefined`). -/
structure RawFormat where
  itag : Nat
  hasAudio : Bool
  hasVideo : Bool
  qualityLabel : Option String
  audioQuality : Option String
  container : Option String
  fps : Option Nat
  videoCodec : Option String
  audioCodec : Option String
  bitrate : Option Nat
deriving DecidableEq, Repr

/-- The descriptor produced for the video kind (the object literal built in
the `else` branch of `getVideoInfoWithRetry`). -/
structure VideoFormat where
  itag : Nat
  quality : Option String
  container : Option String
  hasAudio : Bool
  fps : Option Nat
  videoCodec : Option String
  audioCodec : Option String
  bitrate : Option Nat
deriving DecidableEq, Repr

/-- The descriptor produced for the audio kind. -/
structure AudioFormat where
  itag : Nat
  quality : Option String
  container : Option String
  audioQuality : Option String
  bitrate : Option Nat
deriving DecidableEq, Repr

def toVideoFormat (f : RawFormat) : VideoFormat :=
  { itag := f.itag, quality := f.qualityLabel, container := f.container,
    hasAudio := f.hasAudio, fps := f.fps, videoCodec := f.videoCodec,
    audioCodec := f.audioCodec, bitrate := f.bitrate }

def toAudioFormat (f : RawFormat) : AudioFormat :=
  { itag := f.itag, quality := f.audioQuality, container := f.container,
    audioQuality := f.audioQuality, bitrate := f.bitrate }

/-- The video sort comparator: numeric quality descending, ties broken in
favour of the entry that has audio, further ties by fps descending. -/
def videoCmp (a b : VideoFormat) : Int :=
  let qualityA := jsParseIntOr0 a.quality
  let qualityB := jsParseIntOr0 b.quality
  if qualityA = qualityB then
    if a.hasAudio ≠ b.hasAudio then (if a.hasAudio then -1 else 1)
    else (b.fps.getD 0 : Int) - (a.fps.getD 0 : Int)
  else (qualityB : Int) - (qualityA : Int)

/-- The ordering induced by the comparator, as accepted by a stable sort. -/
def videoLe (a b : VideoFormat) : Prop := videoCmp a b ≤ 0

instance : DecidableRel videoLe := fun a b =>
  inferInstanceAs (Decidable (videoCmp a b ≤ 0))

/-- The audio sort comparator: bitrate descending, a missing bitrate read
as 0. -/
def audioCmp (a b : AudioFormat) : Int :=
  (b.bitrate.getD 0 : Int) - (a.bitrate.getD 0 : Int)

def audioLe (a b : AudioFormat) : Prop := audioCmp a b ≤ 0

instance : DecidableRel audioLe := fun a b =>
  inferInstanceAs (Decidable (audioCmp a b ≤ 0))

instance : IsTotal AudioFormat audioLe :=
  ⟨fun a b => by unfold audioLe audioCmp; omega⟩

instance : IsTrans AudioFormat audioLe :=
  ⟨fun a b c => by unfold audioLe audioCmp; omega⟩

/-- The sorted list of video descriptors (filter on `hasVideo`, map to
descriptors, stable sort by the comparator). -/
def sortedVideoFormats (raw : List RawFormat) : List VideoFormat :=
  List.insertionSort videoLe ((raw.filter (fun f => f.hasVideo)).map toVideoFormat)

/-- Lookup in the accumulator object of the dedup `reduce`, keyed by quality
label (`undefined` labels all collapse onto one key, as in JavaScript). -/
def getKey : List (Option String × VideoFormat) → Option String → Option VideoFormat
  | [], _ => none
  | (k, v) :: rest, q => if k = q then some v else getKey rest q

/-- Write a key in the accumulator object: replaces in place when the key is
present, otherwise appends (JavaScript property insertion order). -/
def setKey : List (Option String × VideoFormat) → Option String → VideoFormat →
    List (Option String × VideoFormat)
  | [], q, v => [(q, v)]
  | (k, w) :: rest, q, v =>
    if k = q then (k, v) :: rest else (k, w) :: setKey rest q v

/-- One step of the dedup `reduce`: keep the held entry for the quality
bucket unless the new entry has audio and the held one does not. -/
def dedupStep (acc : List (Option String × VideoFormat)) (f : VideoFormat) :
    List (Option String × VideoFormat) :=
  match getKey acc f.quality with
  | none => setKey acc f.quality f
  | some r => if f.hasAudio && !r.hasAudio then setKey acc f.quality f else acc

/-- `Object.values(videoFormats.reduce(...))`: deduplicate by quality label. -/
def dedupByQuality (l : List VideoFormat) : List VideoFormat :=
  (l.foldl dedupStep []).map Prod.snd

/-- The video-kind catalog: sort then deduplicate by quality label. -/
def videoCatalogFormats (raw : List RawFormat) : List VideoFormat :=
  dedupByQuality (sortedVideoFormats raw)

/-- The audio-kind catalog: filter entries with audio and no video, map to
descriptors, sort by bitrate descending; no deduplication. -/
def audioCatalogFormats (raw : List RawFormat) : List AudioFormat :=
  List.insertionSort audioLe
    ((raw.filter (fun f => f.hasAudio && !f.hasVideo)).map toAudioFormat)

/-- The processed formats list, one of the two kinds. -/
inductive CatalogFormats where
  | video (fs : List VideoFormat)
  | audio (fs : List AudioFormat)
deriving DecidableEq, Repr

/-- The `if (type === 'audio') ... else ...` branch of the catalog builder. -/
def buildFormats (t : String) (raw : List RawFormat) : CatalogFormats :=
  if t = "audio" then .audio (audioCatalogFormats raw)
  else .video (videoCatalogFormats raw)

/-- The raw upstream metadata object (`info`), reduced to the fields read by
the server. -/
structure RawInfo where
  title : String
  formats : List RawFormat
  lengthSeconds : Nat
  author : String
  videoId : String
  isLive : Bool
  thumbnails : List String
deriving DecidableEq, Repr

/-- The `responseData` object cached and returned by
`getVideoInfoWithRetry`. -/
structure CatalogData where
  title : String
  formats : CatalogFormats
  lengthSeconds : Nat
  author : String
  videoId : String
  isLive : Bool
  thumbnails : List String
deriving DecidableEq, Repr

def processInfo (t : String) (info : RawInfo) : CatalogData :=
  { title := info.title, formats := buildFormats t info.formats,
    lengthSeconds := info.lengthSeconds, author := info.author,
    videoId := info.videoId, isLive := info.isLive,
    thumbnails := info.thumbnails }

/-! ### The catalog cache (NodeCache with a fixed 1 hour TTL) -/

/-- `stdTTL: 3600` seconds, in milliseconds. -/
def TTL_MS : Nat := 3600 * 1000

/-- In-memory cache state: association list from key to
(expiry time in ms, value). -/
structure CacheState where
  entries : List (String × Nat × CatalogData)
deriving DecidableEq, Repr

def entGet : List (String × Nat × CatalogData) → String → Option (Nat × CatalogData)
  | [], _ => none
  | (k, e) :: rest, q => if k = q then some e else entGet rest q

def entSet : List (String × Nat × CatalogData) → String → Nat × CatalogData →
    List (String × Nat × CatalogData)
  | [], q, e => [(q, e)]
  | (k, e') :: rest, q, e =>
    if k = q then (k, e) :: rest else (k, e') :: entSet rest q e

/-- NodeCache `get`: an entry whose expiry time lies strictly in the past is
treated as a miss. -/
def cacheGet (st : CacheState) (now : Nat) (k : String) : Option CatalogData :=
  match entGet st.entries k with
  | none => none
  | some (t, v) => if t < now then none else some v

/-- NodeCache `set` under `stdTTL: 3600`: every entry written expires exactly
`TTL_MS` after the time of the write. -/
def cacheSet (st : CacheState) (now : Nat) (k : String) (v : CatalogData) :
    CacheState :=
  ⟨entSet st.entries k (now + TTL_MS, v)⟩

/-- The cache key is the string `videoId + '-' + type`. -/
def cacheKey (videoId t : String) : String :=
  videoId ++ "-" ++ t

/-- The caching skeleton of `getVideoInfoWithRetry` (success path): serve
from the cache when the entry is fresh, otherwise fetch upstream, process,
and write back.  The boolean records whether the upstream fetch
(`ytdl.getInfo`) was performed. -/
def getVideoInfoCached (st : CacheState) (now : Nat) (videoId t : String)
    (upstream : RawInfo) : CatalogData × CacheState × Bool :=
  match cacheGet st now (cacheKey videoId t) with
  | some v => (v, st, false)
  | none =>
    let d := processInfo t upstream
    (d, cacheSet st now (cacheKey videoId t) d, true)

/-! ### The download route -/

/-- The relevant query parameters of a `/download` request; each is a string
or absent. -/
structure DownloadQuery where
  url : Option String
  itag : Option String
  kindSel : Option String
deriving DecidableEq, Repr

/-- The destructuring default `type = 'video'` (applies only when the
parameter is absent). -/
def effectiveKindDl (o : Option String) : String := o.getD "video"

/-- The `/video-info` default `req.query.type || 'video'` (an empty string is
falsy and also falls back). -/
def effectiveKindInfo : Option String → String
  | none => "video"
  | some s => if s = "" then "video" else s

/-- The filename extension chosen for the response. -/
def downloadExtension (t : String) : String :=
  if t = "audio" then "mp3" else "mp4"

/-- The Content-Type header chosen for the response. -/
def downloadContentType (t : String) : String :=
  if t = "audio" then "audio/mpeg" else "video/mp4"

/-- `title.replace(/[^\w\s]/gi, '')`: a character survives exactly when it is
a word character (ASCII letter, digit or underscore) or whitespace. -/
def jsWordChar (c : Char) : Bool :=
  c.isAlphanum || c = '_'

/-- The JavaScript `\s` class. -/
def jsSpaceChar (c : Char) : Bool :=
  c = ' ' || c = '\t' || c = '\n' || c = '\r' || c = '\x0b' || c = '\x0c' ||
  c = '\u00A0' || c = '\u1680' || ('\u2000' ≤ c && c ≤ '\u200A') ||
  c = '\u2028' || c = '\u2029' || c = '\u202F' || c = '\u205F' ||
  c = '\u3000' || c = '\uFEFF'

def jsKeepChar (c : Char) : Bool :=
  jsWordChar c || jsSpaceChar c

/-- The title sanitizer of the download route. -/
def sanitizeTitle (s : String) : String :=
  ⟨s.data.filter jsKeepChar⟩

/-- Modelled from the spec's words (for comparison with `sanitizeTitle`):
the title with all non-alphanumeric characters stripped. -/
def specStripNonAlphanumeric (s : String) : String :=
  ⟨s.data.filter Char.isAlphanum⟩

/-- The two response headers set by the download route before streaming. -/
structure Headers where
  contentDisposition : String
  contentType : String
deriving DecidableEq, Repr

def downloadHeaders (t : String) (title : String) : Headers :=
  { contentDisposition :=
      "attachment; filename=\"" ++ sanitizeTitle title ++ "." ++
        downloadExtension t ++ "\"",
    contentType := downloadContentType t }

/-- An upstream stream request, identified by the `ytdl` options used. -/
inductive StreamReq where
  | byQuality (itag : String)
  | audioOnlyQuality (itag : String)
  | videoOnlyQuality (itag : String)
  | bestAudio
deriving DecidableEq, Repr

inductive PipeSrc where
  | upstream (idx : Nat)
  | transcoderOut
deriving DecidableEq, Repr

inductive PipeDst where
  | transcoderIn (fd : Nat)
  | response
deriving DecidableEq, Repr

/-- The streaming topology set up by one branch of the download route. -/
structure Plan where
  streams : List StreamReq
  transcoders : Nat
  pipes : List (PipeSrc × PipeDst)
deriving DecidableEq, Repr

/-- Audio branch: one audio-only stream into an ffmpeg MP3 transcoder. -/
def audioPlan (itag : String) : Plan :=
  { streams := [.audioOnlyQuality itag], transcoders := 1,
    pipes := [(.upstream 0, .transcoderIn 0), (.transcoderOut, .response)] }

/-- Direct branch: the selected format already carries audio; a single
upstream stream is piped straight to the response. -/
def directPlan (itag : String) : Plan :=
  { streams := [.byQuality itag], transcoders := 0,
    pipes := [(.upstream 0, .response)] }

/-- Mux branch: the selected video-only stream and the best audio-only
stream are piped into descriptors 3 and 4 of one ffmpeg process whose
output is piped to the response. -/
def muxPlan (itag : String) : Plan :=
  { streams := [.videoOnlyQuality itag, .bestAudio], transcoders := 1,
    pipes := [(.upstream 0, .transcoderIn 3), (.upstream 1, .transcoderIn 4),
      (.transcoderOut, .response)] }

/-- A structured JSON error response. -/
structure ErrorResponse where
  status : Nat
  error : String
  details : String
deriving DecidableEq, Repr

/-- The error classification of the download route's catch block. -/
def classifyDownloadError (m : String) : ErrorResponse :=
  if isTransient m then
    ⟨429, m, "YouTube API rate limit reached. Please try again in a few seconds."⟩
  else
    ⟨400, m, "Failed to download. Please try again or select a different quality."⟩

/-- The error classification of the `/video-info` catch block. -/
def classifyInfoError (m : String) : ErrorResponse :=
  if isTransient m then
    ⟨429, m, "YouTube API rate limit reached. Please try again in a few seconds."⟩
  else
    ⟨400, m,
      "Failed to fetch video information. Please make sure the URL is correct and the video is available."⟩

/-- Outcome of one `/download` request. -/
inductive DlResult where
  | errorResponse (r : ErrorResponse)
  | streaming (h : Headers) (p : Plan)
deriving DecidableEq, Repr

/-- Modelled from the ytdl-core library: `chooseFormat` matches a format
whose itag stringifies to the requested quality string, and throws
otherwise. -/
def chooseFormatOk (c : CatalogFormats) (itagS : String) : Bool :=
  match c with
  | .video fs => fs.any (fun f => toString f.itag = itagS)
  | .audio fs => fs.any (fun f => toString f.itag = itagS)

/-- `info.formats.find(f => f.itag === parseInt(itag))` on the video-kind
catalog (`NaN` matches nothing). -/
def findByItag (fs : List VideoFormat) (itagS : String) : Option VideoFormat :=
  match jsParseInt itagS with
  | none => none
  | some n => fs.find? (fun f => f.itag = n)

/-- The video-kind formats of a catalog (the download route reads
`info.formats` in the video branch, which holds video descriptors). -/
def videoFormatsOf : CatalogFormats → List VideoFormat
  | .video fs => fs
  | .audio _ => []

/-- The control flow of the `/download` route handler, on the success path
of metadata acquisition: parameter guard, metadata fetch, format resolution,
header construction, branch selection.  The second component counts upstream
metadata fetches performed. -/
def downloadHandler (q : DownloadQuery) (up : RawInfo) : DlResult × Nat :=
  if jsFalsy q.url || jsFalsy q.itag then
    (.errorResponse (classifyDownloadError "Missing URL or quality selection"), 0)
  else if chooseFormatOk (processInfo (effectiveKindDl q.kindSel) up).formats
      (q.itag.getD "") = false then
    (.errorResponse (classifyDownloadError
      ("No such format found: " ++ q.itag.getD "")), 1)
  else if effectiveKindDl q.kindSel = "audio" then
    (.streaming
      (downloadHeaders (effectiveKindDl q.kindSel)
        (processInfo (effectiveKindDl q.kindSel) up).title)
      (audioPlan (q.itag.getD "")), 1)
  else
    match findByItag
        (videoFormatsOf (processInfo (effectiveKindDl q.kindSel) up).formats)
        (q.itag.getD "") with
    | some f =>
      if f.hasAudio then
        (.streaming
          (downloadHeaders (effectiveKindDl q.kindSel)
            (processInfo (effectiveKindDl q.kindSel) up).title)
          (directPlan (q.itag.getD "")), 1)
      else
        (.streaming
          (downloadHeaders (effectiveKindDl q.kindSel)
            (processInfo (effectiveKindDl q.kindSel) up).title)
          (muxPlan (q.itag.getD "")), 1)
    | none =>
      (.errorResponse (classifyDownloadError
        "Cannot read properties of undefined (reading 'hasAudio')"), 1)

/-- Events of a download session, used to state that headers are fixed
before any body byte. -/
inductive DlEvent where
  | setHeader (name value : String)
  | openStream (s : StreamReq)
  | spawnTranscoder
  | pipe (src : PipeSrc) (dst : PipeDst)
  | jsonError (r : ErrorResponse)
deriving DecidableEq, Repr

def isSetHeader : DlEvent → Bool
  | .setHeader _ _ => true
  | _ => false

/-- Body events of a plan, in the order the route wires them: the ffmpeg
process is spawned before the upstream streams are opened, then pipes are
attached. -/
def planEvents (p : Plan) : List DlEvent :=
  List.replicate p.transcoders .spawnTranscoder ++
    p.streams.map .openStream ++ p.pipes.map (fun pr => .pipe pr.1 pr.2)

/-- The event trace of one `/download` request. -/
def downloadTrace (q : DownloadQuery) (up : RawInfo) : List DlEvent :=
  match (downloadHandler q up).1 with
  | .errorResponse r => [.jsonError r]
  | .streaming h p =>
    .setHeader "Content-Disposition" h.contentDisposition ::
      .setHeader "Content-Type" h.contentType :: planEvents p

/-! ### Session resources and teardown -/

/-- The three cleanup variables declared at the top of the download route
(`let videoStream = null; let audioStream = null; let ffmpegCommand = null`),
holding stream/process handles when assigned. -/
structure SessionVars where
  videoStream : Option Nat
  audioStream : Option Nat
  ffmpegCommand : Option Nat
deriving DecidableEq, Repr

/-- The three streaming branches of the route. -/
inductive DlPath where
  | audioConv
  | direct
  | mux
deriving DecidableEq, Repr

/-- Handles created by one run of a branch, together with the state of the
cleanup variables when the branch finishes wiring.  Stream handles are
numbered from 0, the ffmpeg process handle is 100.  In the direct branch the
upstream stream is bound to a local `const stream` and never assigned to the
`videoStream` cleanup variable. -/
structure SessionRun where
  openedStreams : List Nat
  spawnedProcs : List Nat
  vars : SessionVars
deriving DecidableEq, Repr

def runPath : DlPath → SessionRun
  | .audioConv =>
    { openedStreams := [0], spawnedProcs := [100],
      vars := ⟨none, some 0, some 100⟩ }
  | .direct =>
    { openedStreams := [0], spawnedProcs := [],
      vars := ⟨none, none, none⟩ }
  | .mux =>
    { openedStreams := [0, 1], spawnedProcs := [100],
      vars := ⟨some 0, some 1, some 100⟩ }

/-- The `req.on('close')` handler and the catch-block cleanup: destroy the
streams held in the cleanup variables. -/
def closeHandlerDestroys (v : SessionVars) : List Nat :=
  v.videoStream.toList ++ v.audioStream.toList

/-- The processes killed by the same handlers. -/
def closeHandlerKills (v : SessionVars) : List Nat :=
  v.ffmpegCommand.toList

/-! ### Error propagation after headers are sent -/

/-- Observable outcome of running the download route's catch block. -/
structure CatchOutcome where
  jsonWritten : Option ErrorResponse
  resEnded : Bool
  epipeLogged : Bool
  otherEndErrorLogged : Bool
  crashed : Bool
  streamsDestroyed : Bool
  transcoderKilled : Bool
deriving DecidableEq, Repr

/-- The catch block of the download route: before headers are sent the error
is converted to a structured payload; after headers are sent the response is
ended inside a try/catch whose EPIPE branch only logs; the cleanup of the
registered streams and the ffmpeg process runs on every path and no
exception escapes. -/
def downloadCatch (headersSent : Bool) (errMsg : String)
    (endRaise : Option String) : CatchOutcome :=
  if headersSent then
    match endRaise with
    | none =>
      { jsonWritten := none, resEnded := true, epipeLogged := false,
        otherEndErrorLogged := false, crashed := false,
        streamsDestroyed := true, transcoderKilled := true }
    | some code =>
      if code = "EPIPE" then
        { jsonWritten := none, resEnded := false, epipeLogged := true,
          otherEndErrorLogged := false, crashed := false,
          streamsDestroyed := true, transcoderKilled := true }
      else
        { jsonWritten := none, resEnded := false, epipeLogged := false,
          otherEndErrorLogged := true, crashed := false,
          streamsDestroyed := true, transcoderKilled := true }
  else
    { jsonWritten := some (classifyDownloadError errMsg), resEnded := true,
      epipeLogged := false, otherEndErrorLogged := false, crashed := false,
      streamsDestroyed := true, transcoderKilled := true }

/-- The global error-handling middleware: EPIPE errors are logged and
swallowed; after headers are sent no payload is written and `res.end()` is
attempted inside a try/catch. -/
def errorMiddleware (errCode : Option String) (errMsg : String)
    (headersSent : Bool) (_endRaise : Option String) :
    Option ErrorResponse × Bool :=
  if errCode = some "EPIPE" || strIncludes errMsg "EPIPE" then
    if headersSent then (none, false)
    else (some ⟨500, "Connection error",
      "The connection was interrupted. Please try again."⟩, false)
  else
    if headersSent then (none, false)
    else (some ⟨500, "Internal server error",
      "An unexpected error occurred. Please try again later."⟩, false)

/-! ### Concrete inputs used by the witnesses -/

/-- A transient upstream failure message. -/
def msgEx : String := "Too many requests: Status code: 429"

/-- An upstream that fails transiently on every attempt. -/
def uEx : Nat → Outcome Nat := fun _ => .err msgEx

/-- A raw format with video and audio (itag 18, 360p). -/
def rfDirect : RawFormat :=
  { itag := 18, hasAudio := true, hasVideo := true,
    qualityLabel := some "360p", audioQuality := some "AUDIO_QUALITY_LOW",
    container := some "mp4", fps := some 30, videoCodec := some "h264",
    audioCodec := some "aac", bitrate := some 500000 }

/-- A video-only raw format (itag 137, 1080p). -/
def rfVideoOnly : RawFormat :=
  { itag := 137, hasAudio := false, hasVideo := true,
    qualityLabel := some "1080p", audioQuality := none,
    container := some "mp4", fps := some 30, videoCodec := some "h264",
    audioCodec := none, bitrate := some 4000000 }

/-- A second 1080p video format that carries audio. -/
def rfVideoAudio : RawFormat :=
  { itag := 22, hasAudio := true, hasVideo := true,
    qualityLabel := some "1080p", audioQuality := some "AUDIO_QUALITY_MEDIUM",
    container := some "mp4", fps := some 30, videoCodec := some "h264",
    audioCodec := some "aac", bitrate := some 3000000 }

/-- An audio-only raw format. -/
def rfAudioHigh : RawFormat :=
  { itag := 140, hasAudio := true, hasVideo := false,
    qualityLabel := none, audioQuality := some "AUDIO_QUALITY_MEDIUM",
    container := some "m4a", fps := none, videoCodec := none,
    audioCodec := some "aac", bitrate := some 128000 }

/-- A second audio-only raw format with a lower bitrate. -/
def rfAudioLow : RawFormat :=
  { itag := 139, hasAudio := true, hasVideo := false,
    qualityLabel := none, audioQuality := some "AUDIO_QUALITY_LOW",
    container := some "m4a", fps := none, videoCodec := none,
    audioCodec := some "aac", bitrate := some 48000 }

/-- A concrete raw metadata response. -/
def upEx : RawInfo :=
  { title := "My Video", formats := [rfVideoOnly, rfDirect, rfVideoAudio,
      rfAudioHigh, rfAudioLow],
    lengthSeconds := 61, author := "someone", videoId := "abc123def45",
    isLive := false, thumbnails := ["t1"] }

/-- A download query selecting itag 18 (a format with audio). -/
def qDirect : DownloadQuery :=
  { url := some "https+yt/watch?v=abc123def45", itag := some "18",
    kindSel := some "video" }

/-- A download query selecting itag 137 (a video-only format). -/
def qMux : DownloadQuery :=
  { url := some "https+yt/watch?v=abc123def45", itag := some "137",
    kindSel := none }

/-- A response whose only 1080p entry is video-only, so that it survives
deduplication. -/
def upMux : RawInfo :=
  { title := "My Video", formats := [rfVideoOnly, rfDirect, rfAudioHigh, rfAudioLow],
    lengthSeconds := 61, author := "someone", videoId := "abc123def45",
    isLive := false, thumbnails := ["t1"] }

/-- A download query with no itag. -/
def qMissing : DownloadQuery :=
  { url := some "https+yt/watch?v=abc123def45", itag := none,
    kindSel := none }

/-- A concrete catalog value for cache witnesses. -/
def catEx : CatalogData := processInfo "video" upEx

/-- A cache holding `catEx` under the key of `upEx` with expiry time 5000. -/
def cacheEx : CacheState :=
  ⟨[(cacheKey "abc123def45" "video", (5000, catEx))]⟩

/-- The state machine of the dedup `reduce` restricted to the entries of one
quality bucket: the held entry is replaced exactly when the incoming entry
has audio and the held one does not. -/
def runKey : Option VideoFormat → List VideoFormat → Option VideoFormat
  | r, [] => r
  | none, f :: fs => runKey (some f) fs
  | some r, f :: fs =>
    runKey (some (if f.hasAudio && !r.hasAudio then f else r)) fs

/-- The entry the dedup pass retains for quality bucket `q` of list `l`,
as the claim states it: the first entry of the bucket in sorted order,
unless a later entry of the bucket has audio while it does not, in which
case the first such audio-carrying entry. -/
def retainedFor (l : List VideoFormat) (q : Option String) : Option VideoFormat :=
  match l.filter (fun f => decide (f.quality = q)) with
  | [] => none
  | x :: xs => some (((x :: xs).find? (fun f => f.hasAudio)).getD x)

section RetryLemmas

variable {α : Type} {u : Nat → Outcome α}

theorem retryGo_ok {rc : Nat} {v : α} (h : u rc = .ok v) :
    retryGo u rc = (.ok v, []) := by
  unfold retryGo
  rw [h]

theorem retryGo_err_stop {rc : Nat} {m : String} (h : u rc = .err m)
    (ht : ¬ (isTransient m = true ∧ rc < MAX_RETRIES)) :
    retryGo u rc = (.err m, []) := by
  unfold retryGo
  rw [h]
  by_cases h1 : isTransient m
  · have h2 : ¬ rc < MAX_RETRIES := fun hlt => ht ⟨h1, hlt⟩
    simp [h1, h2]
  · simp [h1]

theorem retryGo_err_retry {rc : Nat} {m : String} (h : u rc = .err m)
    (h1 : isTransient m = true) (h2 : rc < MAX_RETRIES) :
    retryGo u rc =
      ((retryGo u (rc + 1)).1,
        INITIAL_RETRY_DELAY * 2 ^ rc :: (retryGo u (rc + 1)).2) := by
  conv_lhs => unfold retryGo
  rw [h]
  simp [h1, h2]

/-- Prepending the backoff delay for attempt `rc` to a tail that follows the
backoff formula from `rc + 1` yields the formula from `rc`. -/
theorem cons_backoff (rc : Nat) (L : List Nat)
    (hL : L = (List.range L.length).map
      (fun i => INITIAL_RETRY_DELAY * 2 ^ (rc + 1 + i))) :
    INITIAL_RETRY_DELAY * 2 ^ rc :: L =
      (List.range (L.length + 1)).map
        (fun i => INITIAL_RETRY_DELAY * 2 ^ (rc + i)) := by
  rw [List.range_succ_eq_map, List.map_cons, List.map_map]
  refine List.cons_eq_cons.mpr ⟨by norm_num, ?_⟩
  conv_lhs => rw [hL]
  refine List.map_congr_left ?_
  intro i _
  simp only [Function.comp_apply, Nat.succ_eq_add_one]
  have hx : rc + 1 + i = rc + (i + 1) := by omega
  rw [hx]

/-- The delays performed from any starting count follow the exponential
backoff formula and there are at most `MAX_RETRIES - rc` of them. -/
theorem retryGo_delays (u : Nat → Outcome α) :
    ∀ n rc, MAX_RETRIES - rc ≤ n →
      (retryGo u rc).2.length ≤ MAX_RETRIES - rc ∧
      (retryGo u rc).2 =
        (List.range (retryGo u rc).2.length).map
          (fun i => INITIAL_RETRY_DELAY * 2 ^ (rc + i)) := by
  intro n
  induction n with
  | zero =>
    intro rc hle
    have hge : MAX_RETRIES ≤ rc := by omega
    cases hu : u rc with
    | ok v => simp [retryGo_ok hu]
    | err m =>
      have : retryGo u rc = (.err m, []) :=
        retryGo_err_stop hu (by rintro ⟨-, hlt⟩; omega)
      simp [this]
  | succ n ih =>
    intro rc hle
    cases hu : u rc with
    | ok v => simp [retryGo_ok hu]
    | err m =>
      by_cases h1 : isTransient m
      · by_cases h2 : rc < MAX_RETRIES
        · have hrec := retryGo_err_retry hu h1 h2
          have hih := ih (rc + 1) (by omega)
          rw [hrec]
          constructor
          · simp only [List.length_cons]
            omega
          · simp only [List.length_cons]
            exact cons_backoff rc _ hih.2
        · have : retryGo u rc = (.err m, []) :=
            retryGo_err_stop hu (by rintro ⟨-, hlt⟩; exact h2 hlt)
          simp [this]
      · have : retryGo u rc = (.err m, []) :=
          retryGo_err_stop hu (by rintro ⟨hT, -⟩; exact h1 hT)
        simp [this]

/-- If the first `k` attempts fail transiently and attempt `k` fails with a
non-transient error, the error is surfaced at once with exactly the `k`
backoff delays already performed. -/
theorem retryGo_nontransient_surface (u : Nat → Outcome α) :
    ∀ k rc m, rc + k ≤ MAX_RETRIES →
      (∀ i, rc ≤ i → i < rc + k → ∃ m', u i = .err m' ∧ isTransient m' = true) →
      u (rc + k) = .err m → isTransient m = false →
      retryGo u rc =
        (.err m, (List.range k).map (fun i => INITIAL_RETRY_DELAY * 2 ^ (rc + i))) := by
  intro k
  induction k with
  | zero =>
    intro rc m _ _ hm hT
    simp only [Nat.add_zero] at hm
    simpa using retryGo_err_stop hm (by rintro ⟨hT', -⟩; rw [hT] at hT'; cases hT')
  | succ k ih =>
    intro rc m hle hpre hm hT
    obtain ⟨m', hm', hT'⟩ := hpre rc (le_refl rc) (by omega)
    rw [retryGo_err_retry hm' hT' (by
      have h3 : MAX_RETRIES = 3 := rfl
      omega)]
    have hrec := ih (rc + 1) m (by omega)
      (fun i h1 h2 => hpre i (by omega) (by omega))
      (by rw [show rc + 1 + k = rc + (k + 1) from by omega]; exact hm) hT
    rw [hrec]
    have hcons := cons_backoff rc
      ((List.range k).map (fun i => INITIAL_RETRY_DELAY * 2 ^ (rc + 1 + i)))
      (by simp)
    simp only [List.length_map, List.length_range] at hcons
    rw [hcons]

/-- If every attempt up to `MAX_RETRIES` fails transiently, the loop performs
all the backoff delays and surfaces the error of the last attempt. -/
theorem retryGo_exhaust (u : Nat → Outcome α) :
    ∀ k rc, rc + k = MAX_RETRIES →
      (∀ i, rc ≤ i → i ≤ MAX_RETRIES → ∃ m', u i = .err m' ∧ isTransient m' = true) →
      ∃ m, u MAX_RETRIES = .err m ∧
        retryGo u rc =
          (.err m, (List.range k).map (fun i => INITIAL_RETRY_DELAY * 2 ^ (rc + i))) := by
  intro k
  induction k with
  | zero =>
    intro rc hrc hpre
    obtain ⟨m, hm, hT⟩ := hpre rc (le_refl rc) (by omega)
    refine ⟨m, by rw [← hrc, Nat.add_zero]; exact hm, ?_⟩
    simpa using retryGo_err_stop hm (by rintro ⟨-, hlt⟩; omega)
  | succ k ih =>
    intro rc hrc hpre
    obtain ⟨m', hm', hT'⟩ := hpre rc (le_refl rc) (by omega)
    obtain ⟨m, hm, hrec⟩ := ih (rc + 1) (by omega)
      (fun i h1 h2 => hpre i (by omega) h2)
    refine ⟨m, hm, ?_⟩
    rw [retryGo_err_retry hm' hT' (by omega), hrec]
    have hcons := cons_backoff rc
      ((List.range k).map (fun i => INITIAL_RETRY_DELAY * 2 ^ (rc + 1 + i)))
      (by simp)
    simp only [List.length_map, List.length_range] at hcons
    rw [hcons]

end RetryLemmas

/-- Claim C1: every upstream metadata or stream-acquisition call that fails
transiently (the rate-limiting signal) is retried with delay
`INITIAL_RETRY_DELAY * 2 ^ attempt` starting at 1 second, for at most 4
total attempts with strictly increasing delays 1000, 2000, 4000 ms; a
non-transient failure is surfaced immediately with no further retry; and
when all retries are exhausted the last error is surfaced and classified as
`UpstreamUnavailable` (the 429 classification of the route handlers). -/
theorem c1_retry_backoff (α : Type) (u : Nat → Outcome α) :
    ((retryFromStart u).2.length + 1 ≤ 4 ∧
      (retryFromStart u).2 =
        (List.range (retryFromStart u).2.length).map
          (fun i => INITIAL_RETRY_DELAY * 2 ^ i) ∧
      (retryFromStart u).2.Chain' (· < ·)) ∧
    (∀ k m, k ≤ MAX_RETRIES →
      (∀ i, i < k → ∃ m', u i = .err m' ∧ isTransient m' = true) →
      u k = .err m → isTransient m = false →
      retryFromStart u =
        (.err m, (List.range k).map (fun i => INITIAL_RETRY_DELAY * 2 ^ i))) ∧
    ((∀ i, i ≤ MAX_RETRIES → ∃ m', u i = .err m' ∧ isTransient m' = true) →
      ∃ m, u MAX_RETRIES = .err m ∧
        retryFromStart u = (.err m, [1000, 2000, 4000]) ∧
        errorTag m = .UpstreamUnavailable) := by
  have hdel := retryGo_delays u MAX_RETRIES 0 (by omega)
  have h3 : MAX_RETRIES = 3 := rfl
  have hlen : (retryFromStart u).2.length ≤ 3 := by
    have h1 := hdel.1
    simp only [retryFromStart]
    omega
  have hfor : (retryFromStart u).2 =
      (List.range (retryFromStart u).2.length).map
        (fun i => INITIAL_RETRY_DELAY * 2 ^ i) := by
    simpa [retryFromStart] using hdel.2
  refine ⟨⟨by omega, hfor, ?_⟩, ?_, ?_⟩
  · rw [hfor]
    refine List.Pairwise.chain' ?_
    refine List.Pairwise.map _ ?_ (List.pairwise_lt_range _)
    intro a b hab
    exact mul_lt_mul_of_pos_left (Nat.pow_lt_pow_right (by norm_num) hab)
      (by norm_num [INITIAL_RETRY_DELAY])
  · intro k m hk hpre hm hT
    have h := retryGo_nontransient_surface u k 0 m (by omega)
      (fun i h1 h2 => hpre i (by omega)) (by simpa using hm) hT
    simpa [retryFromStart] using h
  · intro hpre
    obtain ⟨m, hm, hrec⟩ := retryGo_exhaust u MAX_RETRIES 0 (by omega)
      (fun i _ h2 => hpre i h2)
    refine ⟨m, hm, ?_, ?_⟩
    · show retryGo u 0 = _
      rw [hrec]
      have hl : (List.range MAX_RETRIES).map
          (fun i => INITIAL_RETRY_DELAY * 2 ^ (0 + i)) = [1000, 2000, 4000] := by
        decide
      rw [hl]
    · obtain ⟨m', hm', hT'⟩ := hpre MAX_RETRIES (le_refl _)
      rw [hm] at hm'
      cases hm'
      simp [errorTag, hT']

/-- Witness for C1: an upstream that fails with a rate-limit message on
every attempt performs exactly the delays 1000, 2000, 4000 ms and surfaces
the last error classified as `UpstreamUnavailable`. -/
theorem c1_retry_backoff_witness :
    retryFromStart uEx = (.err msgEx, [1000, 2000, 4000]) ∧
    errorTag msgEx = .UpstreamUnavailable := by
  obtain ⟨m, hm, hr, ht⟩ :=
    (c1_retry_backoff Nat uEx).2.2 (fun i _ => ⟨msgEx, rfl, by decide⟩)
  have hmm : Outcome.err (α := Nat) m = .err msgEx := by
    rw [← hm]; rfl
  cases hmm
  exact ⟨hr, ht⟩

/-! ### Deduplication by quality label (claim C2) -/

theorem getKey_setKey_self (acc : List (Option String × VideoFormat))
    (q : Option String) (v : VideoFormat) :
    getKey (setKey acc q v) q = some v := by
  induction acc with
  | nil => simp [setKey, getKey]
  | cons p rest ih =>
    obtain ⟨k, w⟩ := p
    by_cases h : k = q
    · simp [setKey, getKey, h]
    · simp [setKey, getKey, h, ih]

theorem getKey_setKey_ne (acc : List (Option String × VideoFormat))
    (q q' : Option String) (v : VideoFormat) (h : q' ≠ q) :
    getKey (setKey acc q v) q' = getKey acc q' := by
  induction acc with
  | nil => simp [setKey, getKey, Ne.symm h]
  | cons p rest ih =>
    obtain ⟨k, w⟩ := p
    by_cases hk : k = q
    · subst hk
      simp [setKey, getKey, Ne.symm h]
    · simp only [setKey, if_neg hk]
      by_cases hk' : k = q'
      · simp [getKey, hk']
      · simp [getKey, hk', ih]

/-- Unfolding of `dedupStep` on a fresh quality bucket. -/
theorem dedupStep_eq_new (acc : List (Option String × VideoFormat))
    (f : VideoFormat) (h : getKey acc f.quality = none) :
    dedupStep acc f = setKey acc f.quality f := by
  unfold dedupStep
  rw [h]

/-- Unfolding of `dedupStep` on an occupied quality bucket. -/
theorem dedupStep_eq_held (acc : List (Option String × VideoFormat))
    (f r : VideoFormat) (h : getKey acc f.quality = some r) :
    dedupStep acc f =
      if f.hasAudio && !r.hasAudio then setKey acc f.quality f else acc := by
  unfold dedupStep
  rw [h]

theorem getKey_dedupStep (acc : List (Option String × VideoFormat))
    (f : VideoFormat) (q : Option String) :
    getKey (dedupStep acc f) q =
      if f.quality = q then
        match getKey acc q with
        | none => some f
        | some r => if f.hasAudio && !r.hasAudio then some f else some r
      else getKey acc q := by
  by_cases hq : f.quality = q
  · subst hq
    cases hacc : getKey acc f.quality with
    | none =>
      rw [dedupStep_eq_new acc f hacc]
      simp [hacc, getKey_setKey_self]
    | some r =>
      rw [dedupStep_eq_held acc f r hacc]
      by_cases hcond : (f.hasAudio && !r.hasAudio) = true
      · simp [hacc, hcond, getKey_setKey_self]
      · simp [hacc, hcond]
  · have hne : q ≠ f.quality := fun h => hq h.symm
    cases hacc : getKey acc f.quality with
    | none =>
      rw [dedupStep_eq_new acc f hacc]
      simp [hq, getKey_setKey_ne _ _ _ _ hne]
    | some r =>
      rw [dedupStep_eq_held acc f r hacc]
      by_cases hcond : (f.hasAudio && !r.hasAudio) = true
      · simp [hcond, hq, getKey_setKey_ne _ _ _ _ hne]
      · simp [hcond, hq]

theorem getKey_foldl (l : List VideoFormat) :
    ∀ (acc : List (Option String × VideoFormat)) (q : Option String),
      getKey (l.foldl dedupStep acc) q =
        runKey (getKey acc q) (l.filter (fun f => decide (f.quality = q))) := by
  induction l with
  | nil => intro acc q; simp [runKey]
  | cons f l ih =>
    intro acc q
    simp only [List.foldl_cons, List.filter_cons]
    rw [ih, getKey_dedupStep]
    by_cases hq : f.quality = q
    · simp only [hq, if_pos rfl, decide_eq_true_eq]
      rw [if_pos trivial]
      cases hacc : getKey acc q with
      | none => simp [runKey]
      | some r =>
        simp only [runKey]
        split_ifs <;> rfl
    · simp only [if_neg hq]
      have : (decide (f.quality = q)) = false := by simp [hq]
      rw [this]
      simp

theorem runKey_some (xs : List VideoFormat) :
    ∀ r : VideoFormat, runKey (some r) xs =
      some (if r.hasAudio then r
        else ((xs.find? (fun f => f.hasAudio)).getD r)) := by
  induction xs with
  | nil => intro r; cases hr : r.hasAudio <;> simp [runKey, hr]
  | cons f fs ih =>
    intro r
    cases hr : r.hasAudio with
    | true =>
      have hcond : (f.hasAudio && !r.hasAudio) = false := by simp [hr]
      simp [runKey, hcond, ih, hr]
    | false =>
      cases hf : f.hasAudio with
      | true =>
        have hcond : (f.hasAudio && !r.hasAudio) = true := by simp [hr, hf]
        simp [runKey, hcond, ih, hr, hf, List.find?]
      | false =>
        have hcond : (f.hasAudio && !r.hasAudio) = false := by simp [hf]
        simp [runKey, hcond, ih, hr, hf, List.find?]

theorem runKey_none_eq (l : List VideoFormat) :
    runKey none l = match l with
      | [] => none
      | x :: xs => some (((x :: xs).find? (fun f => f.hasAudio)).getD x) := by
  cases l with
  | nil => rfl
  | cons x xs =>
    show runKey (some x) xs = _
    rw [runKey_some]
    cases hx : x.hasAudio with
    | true => simp [List.find?, hx]
    | false => simp [List.find?, hx]

theorem mem_setKey (acc : List (Option String × VideoFormat))
    (q : Option String) (v : VideoFormat)
    (p : Option String × VideoFormat) (h : p ∈ setKey acc q v) :
    p = (q, v) ∨ p ∈ acc := by
  induction acc with
  | nil => simpa [setKey] using h
  | cons hd rest ih =>
    obtain ⟨k, w⟩ := hd
    by_cases hk : k = q
    · subst hk
      rw [setKey, if_pos rfl] at h
      rcases List.mem_cons.mp h with h0 | h0
      · exact Or.inl h0
      · exact Or.inr (List.mem_cons_of_mem _ h0)
    · rw [setKey, if_neg hk] at h
      rcases List.mem_cons.mp h with h0 | h0
      · exact Or.inr (h0 ▸ List.mem_cons_self _ _)
      · rcases ih h0 with h1 | h1
        · exact Or.inl h1
        · exact Or.inr (List.mem_cons_of_mem _ h1)

theorem mem_dedupStep (acc : List (Option String × VideoFormat))
    (f : VideoFormat) (p : Option String × VideoFormat)
    (h : p ∈ dedupStep acc f) : p = (f.quality, f) ∨ p ∈ acc := by
  cases hcase : getKey acc f.quality with
  | none =>
    rw [dedupStep_eq_new acc f hcase] at h
    exact mem_setKey _ _ _ _ h
  | some r =>
    rw [dedupStep_eq_held acc f r hcase] at h
    by_cases hcond : (f.hasAudio && !r.hasAudio) = true
    · rw [if_pos hcond] at h
      exact mem_setKey _ _ _ _ h
    · rw [if_neg hcond] at h
      exact Or.inr h

theorem foldl_quality_inv (l : List VideoFormat) :
    ∀ acc : List (Option String × VideoFormat),
      (∀ p ∈ acc, (Prod.snd p).quality = p.1) →
      ∀ p ∈ l.foldl dedupStep acc, (Prod.snd p).quality = p.1 := by
  induction l with
  | nil => intro acc hacc p hp; exact hacc p hp
  | cons f l ih =>
    intro acc hacc p hp
    refine ih (dedupStep acc f) ?_ p hp
    intro p' hp'
    rcases mem_dedupStep _ _ _ hp' with h | h
    · rw [h]
    · exact hacc p' h

theorem getKey_eq_none_iff (acc : List (Option String × VideoFormat))
    (q : Option String) :
    getKey acc q = none ↔ q ∉ acc.map Prod.fst := by
  induction acc with
  | nil => simp [getKey]
  | cons hd rest ih =>
    obtain ⟨k, w⟩ := hd
    by_cases hk : k = q
    · subst hk
      simp [getKey]
    · rw [getKey, if_neg hk, ih]
      simp only [List.map_cons, List.mem_cons]
      constructor
      · intro hn hmem
        rcases hmem with hmem | hmem
        · exact hk hmem.symm
        · exact hn hmem
      · intro hn hmem
        exact hn (Or.inr hmem)

theorem setKey_keys_replace (acc : List (Option String × VideoFormat))
    (q : Option String) (v : VideoFormat) (h : getKey acc q ≠ none) :
    (setKey acc q v).map Prod.fst = acc.map Prod.fst := by
  induction acc with
  | nil => exact absurd rfl h
  | cons hd rest ih =>
    obtain ⟨k, w⟩ := hd
    by_cases hk : k = q
    · simp [setKey, hk]
    · have h' : getKey rest q ≠ none := by
        rw [getKey, if_neg hk] at h
        exact h
      simp [setKey, hk, ih h']

theorem setKey_keys_new (acc : List (Option String × VideoFormat))
    (q : Option String) (v : VideoFormat) (h : getKey acc q = none) :
    (setKey acc q v).map Prod.fst = acc.map Prod.fst ++ [q] := by
  induction acc with
  | nil => simp [setKey]
  | cons hd rest ih =>
    obtain ⟨k, w⟩ := hd
    by_cases hk : k = q
    · rw [getKey, if_pos hk] at h
      cases h
    · have h' : getKey rest q = none := by
        rw [getKey, if_neg hk] at h
        exact h
      simp [setKey, hk, ih h']

theorem foldl_keys_nodup (l : List VideoFormat) :
    ∀ acc : List (Option String × VideoFormat),
      (acc.map Prod.fst).Nodup →
      ((l.foldl dedupStep acc).map Prod.fst).Nodup := by
  induction l with
  | nil => intro acc h; exact h
  | cons f l ih =>
    intro acc hacc
    refine ih (dedupStep acc f) ?_
    cases hcase : getKey acc f.quality with
    | none =>
      rw [dedupStep_eq_new acc f hcase,
        setKey_keys_new acc f.quality f hcase, List.nodup_append]
      refine ⟨hacc, List.nodup_singleton _, ?_⟩
      intro a ha hb
      simp only [List.mem_singleton] at hb
      subst hb
      exact (getKey_eq_none_iff acc f.quality).mp hcase ha
    | some r =>
      rw [dedupStep_eq_held acc f r hcase]
      by_cases hcond : (f.hasAudio && !r.hasAudio) = true
      · rw [if_pos hcond,
          setKey_keys_replace acc f.quality f (by simp [hcase])]
        exact hacc
      · rw [if_neg hcond]
        exact hacc

theorem getKey_eq_some_of_mem (acc : List (Option String × VideoFormat))
    (k : Option String) (v : VideoFormat) (h : (k, v) ∈ acc)
    (hnd : (acc.map Prod.fst).Nodup) : getKey acc k = some v := by
  induction acc with
  | nil => cases h
  | cons hd rest ih =>
    obtain ⟨k', w⟩ := hd
    simp only [List.map_cons, List.nodup_cons] at hnd
    rcases List.mem_cons.mp h with h0 | h0
    · have h1 : k = k' ∧ v = w := by
        simpa [Prod.ext_iff] using h0
      obtain ⟨h1a, h1b⟩ := h1
      subst h1a
      subst h1b
      simp [getKey]
    · have hk' : k' ≠ k := by
        intro hkk
        subst hkk
        exact hnd.1 (List.mem_map.mpr ⟨(k', v), h0, rfl⟩)
      rw [getKey, if_neg hk']
      exact ih h0 hnd.2

theorem mem_of_getKey_eq_some (acc : List (Option String × VideoFormat))
    (q : Option String) (v : VideoFormat) (h : getKey acc q = some v) :
    (q, v) ∈ acc := by
  induction acc with
  | nil => cases h
  | cons hd rest ih =>
    obtain ⟨k, w⟩ := hd
    by_cases hk : k = q
    · subst hk
      rw [getKey, if_pos rfl] at h
      obtain rfl : w = v := by injection h
      exact List.mem_cons_self _ _
    · rw [getKey, if_neg hk] at h
      exact List.mem_cons_of_mem _ (ih h)

theorem filtered_count_le_one (acc : List (Option String × VideoFormat))
    (q : Option String) (hinv : ∀ p ∈ acc, (Prod.snd p).quality = p.1)
    (hnd : (acc.map Prod.fst).Nodup) :
    ((acc.map Prod.snd).filter (fun f => decide (f.quality = q))).length ≤ 1 := by
  induction acc with
  | nil => simp
  | cons hd rest ih =>
    obtain ⟨k, v⟩ := hd
    simp only [List.map_cons, List.nodup_cons] at hnd
    have hinv' : ∀ p ∈ rest, (Prod.snd p).quality = p.1 :=
      fun p hp => hinv p (List.mem_cons_of_mem _ hp)
    by_cases hv : v.quality = q
    · have hk : k = q := by
        have hq' := hinv (k, v) (List.mem_cons_self _ _)
        simp only at hq'
        rw [← hq', hv]
      subst hk
      have hrest : (rest.map Prod.snd).filter
          (fun f => decide (f.quality = k)) = [] := by
        rw [List.filter_eq_nil_iff]
        intro f hf
        obtain ⟨p, hp, rfl⟩ := List.mem_map.mp hf
        have hq' : (Prod.snd p).quality = p.1 := hinv' p hp
        have hne : p.1 ≠ k := by
          intro hkk
          exact hnd.1 (hkk ▸ List.mem_map.mpr ⟨p, hp, rfl⟩)
        simp [hq', hne]
      simp [List.filter_cons, hv, hrest]
    · simp only [List.map_cons, List.filter_cons]
      have : (decide (v.quality = q)) = false := by simp [hv]
      rw [this]
      simp only [Bool.false_eq_true, if_false]
      exact ih hinv' hnd.2

/-- Claim C2: for every raw metadata response, the video catalog contains at
most one descriptor per distinct quality label, and the descriptor retained
for a label is the first one of that label in sorted order unless a later
one with the same label has audio while the retained one does not, in which
case that later one (the first such) replaces it. -/
theorem c2_video_dedup (raw : List RawFormat) (q : Option String) :
    ((videoCatalogFormats raw).filter
      (fun f => decide (f.quality = q))).length ≤ 1 ∧
    getKey ((sortedVideoFormats raw).foldl dedupStep []) q =
      retainedFor (sortedVideoFormats raw) q ∧
    (∀ f, f ∈ videoCatalogFormats raw → f.quality = q →
      getKey ((sortedVideoFormats raw).foldl dedupStep []) q = some f) ∧
    (∀ f, getKey ((sortedVideoFormats raw).foldl dedupStep []) q = some f →
      f ∈ videoCatalogFormats raw ∧ f.quality = q) := by
  have hinv : ∀ p ∈ (sortedVideoFormats raw).foldl dedupStep [],
      (Prod.snd p).quality = p.1 :=
    foldl_quality_inv _ [] (by simp)
  have hnd : (((sortedVideoFormats raw).foldl dedupStep []).map
      Prod.fst).Nodup :=
    foldl_keys_nodup _ [] (by simp)
  refine ⟨?_, ?_, ?_, ?_⟩
  · exact filtered_count_le_one _ q hinv hnd
  · rw [getKey_foldl]
    simp only [getKey]
    rw [retainedFor]
    exact runKey_none_eq _
  · intro f hf hfq
    have hf' : ∃ a, (a, f) ∈ (sortedVideoFormats raw).foldl dedupStep [] := by
      simpa [videoCatalogFormats, dedupByQuality] using hf
    obtain ⟨k, hp⟩ := hf'
    have hkey : k = q := by
      have hq' := hinv (k, f) hp
      simp only at hq'
      rw [← hq', hfq]
    subst hkey
    exact getKey_eq_some_of_mem _ _ _ hp hnd
  · intro f hf
    have hmem := mem_of_getKey_eq_some _ _ _ hf
    constructor
    · simp only [videoCatalogFormats, dedupByQuality]
      exact List.mem_map.mpr ⟨(q, f), hmem, rfl⟩
    · exact hinv (q, f) hmem

/-- Witness for C2: on a concrete response with two 1080p entries, the
entry retained for the 1080p bucket is the audio-carrying one. -/
theorem c2_video_dedup_witness :
    getKey ((sortedVideoFormats upEx.formats).foldl dedupStep [])
      (some "1080p") = some (toVideoFormat rfVideoAudio) :=
  (c2_video_dedup upEx.formats (some "1080p")).2.2.1 (toVideoFormat rfVideoAudio)
    (by decide) (by decide)

/-! ### The audio catalog (claim C7) -/

theorem audioLe_iff (a b : AudioFormat) :
    audioLe a b ↔ b.bitrate.getD 0 ≤ a.bitrate.getD 0 := by
  unfold audioLe audioCmp
  omega

/-- Claim C7: the audio catalog is a permutation of the descriptors of the
entries with an audio track and no video track (so it contains only those,
with no deduplication), and reads non-increasing in bitrate with a missing
bitrate treated as 0. -/
theorem c7_audio_catalog (raw : List RawFormat) :
    (audioCatalogFormats raw).Pairwise
      (fun a b => b.bitrate.getD 0 ≤ a.bitrate.getD 0) ∧
    (audioCatalogFormats raw).Perm
      ((raw.filter (fun f => f.hasAudio && !f.hasVideo)).map toAudioFormat) := by
  constructor
  · have hs := List.sorted_insertionSort audioLe
      ((raw.filter (fun f => f.hasAudio && !f.hasVideo)).map toAudioFormat)
    exact List.Pairwise.imp (fun hab => (audioLe_iff _ _).mp hab) hs
  · exact List.perm_insertionSort _ _

/-! ### The catalog cache (claim C4) -/

theorem entGet_entSet_self (l : List (String × Nat × CatalogData))
    (k : String) (e : Nat × CatalogData) :
    entGet (entSet l k e) k = some e := by
  induction l with
  | nil => simp [entSet, entGet]
  | cons hd rest ih =>
    obtain ⟨k', e'⟩ := hd
    by_cases hk : k' = k
    · simp [entSet, entGet, hk]
    · simp [entSet, entGet, hk, ih]

theorem mem_entSet (l : List (String × Nat × CatalogData)) (k : String)
    (e : Nat × CatalogData) (p : String × Nat × CatalogData)
    (h : p ∈ entSet l k e) : p = (k, e) ∨ p ∈ l := by
  induction l with
  | nil => simpa [entSet] using h
  | cons hd rest ih =>
    obtain ⟨k', e'⟩ := hd
    by_cases hk : k' = k
    · subst hk
      rw [entSet, if_pos rfl] at h
      rcases List.mem_cons.mp h with h0 | h0
      · exact Or.inl h0
      · exact Or.inr (List.mem_cons_of_mem _ h0)
    · rw [entSet, if_neg hk] at h
      rcases List.mem_cons.mp h with h0 | h0
      · exact Or.inr (h0 ▸ List.mem_cons_self _ _)
      · rcases ih h0 with h1 | h1
        · exact Or.inl h1
        · exact Or.inr (List.mem_cons_of_mem _ h1)

/-- Claim C4: a request served while the cache entry for the (mediaKey,
kind) pair is within its TTL returns the cached catalog with no upstream
call; a request after expiry, or with no entry, performs the upstream call;
and every entry written expires exactly `TTL_MS` (one hour) after the
write — the TTL is one fixed value for all entries. -/
theorem c4_cache_ttl (st : CacheState) (now : Nat) (vid t : String)
    (up : RawInfo) :
    (∀ e v, entGet st.entries (cacheKey vid t) = some (e, v) → now ≤ e →
      getVideoInfoCached st now vid t up = (v, st, false)) ∧
    (∀ e v, entGet st.entries (cacheKey vid t) = some (e, v) → e < now →
      (getVideoInfoCached st now vid t up).2.2 = true) ∧
    (entGet st.entries (cacheKey vid t) = none →
      (getVideoInfoCached st now vid t up).2.2 = true) ∧
    (cacheGet st now (cacheKey vid t) = none →
      (getVideoInfoCached st now vid t up).2.1 =
        cacheSet st now (cacheKey vid t) (processInfo t up)) ∧
    (∀ k v, entGet (cacheSet st now k v).entries k = some (now + TTL_MS, v)) ∧
    (∀ k v p, p ∈ (cacheSet st now k v).entries →
      p ∈ st.entries ∨ p = (k, now + TTL_MS, v)) := by
  refine ⟨?_, ?_, ?_, ?_, ?_, ?_⟩
  · intro e v h hle
    have hget : cacheGet st now (cacheKey vid t) = some v := by
      unfold cacheGet
      rw [h]
      simp [Nat.not_lt.mpr hle]
    unfold getVideoInfoCached
    rw [hget]
  · intro e v h hlt
    have hget : cacheGet st now (cacheKey vid t) = none := by
      unfold cacheGet
      rw [h]
      simp [hlt]
    unfold getVideoInfoCached
    rw [hget]
  · intro h
    have hget : cacheGet st now (cacheKey vid t) = none := by
      unfold cacheGet
      rw [h]
    unfold getVideoInfoCached
    rw [hget]
  · intro hget
    unfold getVideoInfoCached
    rw [hget]
  · intro k v
    exact entGet_entSet_self _ _ _
  · intro k v p hp
    rcases mem_entSet _ _ _ _ hp with h | h
    · exact Or.inr h
    · exact Or.inl h

/-- Witness for C4: with a cached entry expiring at time 5000, a request at
time 4000 is served from the cache with no upstream call. -/
theorem c4_cache_ttl_witness :
    getVideoInfoCached cacheEx 4000 "abc123def45" "video" upEx =
      (catEx, cacheEx, false) :=
  (c4_cache_ttl cacheEx 4000 "abc123def45" "video" upEx).1 5000 catEx rfl
    (by norm_num)

/-! ### The download route branches (claim C3) -/

/-- Claim C3: on a video-kind download whose selected format carries audio,
exactly one upstream stream is opened and piped straight to the response
with no transcoder; when the selected format lacks audio, exactly two
upstream streams are opened (the selected video-only format and the best
audio-only format) and exactly one transcoder is spawned, with both streams
piped into it and its single output piped to the response. -/
theorem c3_video_stream_plan (q : DownloadQuery) (up : RawInfo)
    (itagS : String) (f : VideoFormat)
    (h1 : jsFalsy q.url = false) (h2 : q.itag = some itagS) (h3 : itagS ≠ "")
    (h4 : effectiveKindDl q.kindSel ≠ "audio")
    (h5 : chooseFormatOk (processInfo (effectiveKindDl q.kindSel) up).formats
      itagS = true)
    (h6 : findByItag
      (videoFormatsOf (processInfo (effectiveKindDl q.kindSel) up).formats)
      itagS = some f) :
    (f.hasAudio = true →
      downloadHandler q up =
        (.streaming
          (downloadHeaders (effectiveKindDl q.kindSel)
            (processInfo (effectiveKindDl q.kindSel) up).title)
          (directPlan itagS), 1) ∧
      (directPlan itagS).streams = [.byQuality itagS] ∧
      (directPlan itagS).streams.length = 1 ∧
      (directPlan itagS).transcoders = 0 ∧
      (directPlan itagS).pipes = [(.upstream 0, .response)]) ∧
    (f.hasAudio = false →
      downloadHandler q up =
        (.streaming
          (downloadHeaders (effectiveKindDl q.kindSel)
            (processInfo (effectiveKindDl q.kindSel) up).title)
          (muxPlan itagS), 1) ∧
      (muxPlan itagS).streams = [.videoOnlyQuality itagS, .bestAudio] ∧
      (muxPlan itagS).streams.length = 2 ∧
      (muxPlan itagS).transcoders = 1 ∧
      (muxPlan itagS).pipes = [(.upstream 0, .transcoderIn 3),
        (.upstream 1, .transcoderIn 4), (.transcoderOut, .response)]) := by
  have hguard : (jsFalsy q.url || jsFalsy q.itag) = false := by
    rw [h1, h2]
    simp [jsFalsy, h3]
  have hhandler : downloadHandler q up =
      (if f.hasAudio then
        (.streaming
          (downloadHeaders (effectiveKindDl q.kindSel)
            (processInfo (effectiveKindDl q.kindSel) up).title)
          (directPlan itagS), 1)
      else
        (.streaming
          (downloadHeaders (effectiveKindDl q.kindSel)
            (processInfo (effectiveKindDl q.kindSel) up).title)
          (muxPlan itagS), 1)) := by
    unfold downloadHandler
    rw [hguard]
    simp only [Bool.false_eq_true, if_false, h2, Option.getD_some, h5]
    rw [if_neg (by simp), if_neg h4, h6]
  constructor
  · intro hfa
    rw [hhandler, if_pos hfa]
    exact ⟨rfl, rfl, rfl, rfl, rfl⟩
  · intro hfa
    rw [hhandler, if_neg (by rw [hfa]; exact Bool.false_ne_true)]
    exact ⟨rfl, rfl, rfl, rfl, rfl⟩

/-- Witness for C3: selecting the video-only itag 137 yields the mux plan
with two upstream streams and one transcoder. -/
theorem c3_video_stream_plan_witness :
    downloadHandler qMux upMux =
      (.streaming (downloadHeaders "video" "My Video") (muxPlan "137"), 1) := by
  have h := (c3_video_stream_plan qMux upMux "137" (toVideoFormat rfVideoOnly)
    rfl rfl (by decide) (by decide) (by decide) (by decide)).2 (by decide)
  exact h.1

/-! ### Response headers (claim C6, corrected) -/

/-- Body events carry no header information. -/
theorem planEvents_no_header (p : Plan) :
    ∀ e ∈ planEvents p, isSetHeader e = false := by
  intro e he
  unfold planEvents at he
  rcases List.mem_append.mp he with he | he
  · rcases List.mem_append.mp he with he | he
    · rw [List.eq_of_mem_replicate he]
      rfl
    · obtain ⟨x, _, rfl⟩ := List.mem_map.mp he
      rfl
  · obtain ⟨x, _, rfl⟩ := List.mem_map.mp he
    rfl

/-- Counterexample to C6 as stated: the sanitizer keeps whitespace (and
underscores), so the suggested filename for the title "My Video" is
"My Video.mp4", not the "MyVideo.mp4" that stripping all non-alphanumeric
characters would produce. -/
theorem c6_headers_counterexample :
    (downloadHandler qDirect upEx).1 =
      .streaming (downloadHeaders "video" "My Video") (directPlan "18") ∧
    (downloadHeaders "video" "My Video").contentDisposition =
      "attachment; filename=\"My Video.mp4\"" ∧
    sanitizeTitle "My Video" ≠ specStripNonAlphanumeric "My Video" ∧
    (downloadHeaders "video" "My Video").contentDisposition ≠
      "attachment; filename=\"" ++ specStripNonAlphanumeric "My Video" ++
        ".mp4\"" := by
  refine ⟨by decide, rfl, by decide, by decide⟩

/-- Claim C6 as amended: on every successful download the two headers are
emitted before any body event and are fixed functions of the requested kind
and the title: content type `video/mp4` for the video kind and `audio/mpeg`
for the audio kind, and a filename built from the title with every character
that is neither an ASCII alphanumeric, an underscore, nor whitespace
removed, followed by the matching extension. -/
theorem c6_headers_amended (q : DownloadQuery) (up : RawInfo)
    (hdrs : Headers) (p : Plan)
    (h : (downloadHandler q up).1 = .streaming hdrs p) :
    hdrs.contentType = downloadContentType (effectiveKindDl q.kindSel) ∧
    downloadContentType (effectiveKindDl q.kindSel) =
      (if effectiveKindDl q.kindSel = "audio" then "audio/mpeg"
        else "video/mp4") ∧
    hdrs.contentDisposition =
      "attachment; filename=\"" ++ sanitizeTitle up.title ++ "." ++
        downloadExtension (effectiveKindDl q.kindSel) ++ "\"" ∧
    sanitizeTitle up.title = ⟨up.title.data.filter jsKeepChar⟩ ∧
    downloadExtension (effectiveKindDl q.kindSel) =
      (if effectiveKindDl q.kindSel = "audio" then "mp3" else "mp4") ∧
    downloadTrace q up =
      .setHeader "Content-Disposition" hdrs.contentDisposition ::
        .setHeader "Content-Type" hdrs.contentType :: planEvents p ∧
    (∀ e ∈ planEvents p, isSetHeader e = false) := by
  have htrace : downloadTrace q up =
      .setHeader "Content-Disposition" hdrs.contentDisposition ::
        .setHeader "Content-Type" hdrs.contentType :: planEvents p := by
    unfold downloadTrace
    rw [h]
  have hhdrs : hdrs = downloadHeaders (effectiveKindDl q.kindSel)
      (processInfo (effectiveKindDl q.kindSel) up).title := by
    unfold downloadHandler at h
    split at h
    · cases h
    · split at h
      · cases h
      · split at h
        · obtain ⟨h1, -⟩ := DlResult.streaming.inj h.symm
          exact h1
        · split at h
          · split at h
            · obtain ⟨h1, -⟩ := DlResult.streaming.inj h.symm
              exact h1
            · obtain ⟨h1, -⟩ := DlResult.streaming.inj h.symm
              exact h1
          · cases h
  subst hhdrs
  refine ⟨rfl, rfl, rfl, rfl, rfl, htrace, planEvents_no_header p⟩

/-- Witness for the amended C6: the concrete direct download emits the two
headers, with the whitespace-preserving filename, before the body events. -/
theorem c6_headers_amended_witness :
    downloadTrace qDirect upEx =
      .setHeader "Content-Disposition" "attachment; filename=\"My Video.mp4\"" ::
        .setHeader "Content-Type" "video/mp4" ::
          planEvents (directPlan "18") := by
  have h := (c6_headers_amended qDirect upEx
    (downloadHeaders "video" "My Video") (directPlan "18") (by decide)).2.2.2.2.2.1
  rw [h]
  decide

/-! ### Missing parameters (claim C8) -/

/-- Claim C8: a download request whose locator or format identifier is
missing is answered with the structured 400 error whose error string is
exactly "Missing URL or quality selection", and no upstream call is made. -/
theorem c8_missing_params (q : DownloadQuery) (up : RawInfo)
    (h : q.url = none ∨ q.itag = none) :
    downloadHandler q up =
      (.errorResponse ⟨400, "Missing URL or quality selection",
        "Failed to download. Please try again or select a different quality."⟩,
        0) := by
  have hg : (jsFalsy q.url || jsFalsy q.itag) = true := by
    rcases h with h | h <;> rw [h] <;> simp [jsFalsy]
  unfold downloadHandler
  rw [if_pos hg]
  decide

/-- Witness for C8: a request with no itag gets the exact error and zero
upstream calls. -/
theorem c8_missing_params_witness :
    downloadHandler qMissing upEx =
      (.errorResponse ⟨400, "Missing URL or quality selection",
        "Failed to download. Please try again or select a different quality."⟩,
        0) :=
  c8_missing_params qMissing upEx (Or.inr rfl)

/-! ### Errors after bytes are committed (claim C9) -/

/-- Claim C9: once headers are sent, an error never produces a structured
payload; the response is ended and resources are torn down; an EPIPE raised
while ending is logged and swallowed; and neither the catch block nor the
error middleware lets the exception crash the process. -/
theorem c9_post_commit_errors (m : String) (endRaise errCode : Option String) :
    ((downloadCatch true m endRaise).jsonWritten = none ∧
      (downloadCatch true m endRaise).crashed = false ∧
      (downloadCatch true m endRaise).streamsDestroyed = true ∧
      (downloadCatch true m endRaise).transcoderKilled = true) ∧
    (endRaise = none → (downloadCatch true m endRaise).resEnded = true) ∧
    (endRaise = some "EPIPE" →
      (downloadCatch true m endRaise).epipeLogged = true) ∧
    ((errorMiddleware errCode m true endRaise).1 = none ∧
      (errorMiddleware errCode m true endRaise).2 = false) := by
  refine ⟨?_, ?_, ?_, ?_⟩
  · cases endRaise with
    | none => simp [downloadCatch]
    | some code =>
      by_cases hc : code = "EPIPE" <;> simp [downloadCatch, hc]
  · intro he
    subst he
    simp [downloadCatch]
  · intro he
    subst he
    simp [downloadCatch]
  · unfold errorMiddleware
    by_cases hc : (errCode = some "EPIPE" || strIncludes m "EPIPE") = true <;>
      simp [hc]

/-- Witness for C9: a concrete post-commit EPIPE is swallowed after being
logged, with no payload written and the session torn down. -/
theorem c9_post_commit_errors_witness :
    (downloadCatch true "boom" (some "EPIPE")).jsonWritten = none ∧
    (downloadCatch true "boom" (some "EPIPE")).epipeLogged = true ∧
    (downloadCatch true "boom" (some "EPIPE")).crashed = false ∧
    (downloadCatch true "boom" (some "EPIPE")).streamsDestroyed = true := by
  have h := c9_post_commit_errors "boom" (some "EPIPE") none
  exact ⟨h.1.1, h.2.2.1 rfl, h.1.2.1, h.1.2.2.1⟩

/-! ### Kind selector fallback (claim C10) -/

/-- Claim C10: any kind selector other than the exact string "audio" —
including the absent selector, which defaults to "video" on both routes —
is processed as the video kind: the video catalog branch is taken, and the
download uses the video/mp4 content type and the mp4 extension. -/
theorem c10_kind_fallback (t : String) (ht : t ≠ "audio") :
    (∀ fs : List RawFormat,
      buildFormats t fs = .video (videoCatalogFormats fs)) ∧
    downloadExtension t = "mp4" ∧
    downloadContentType t = "video/mp4" ∧
    effectiveKindDl none = "video" ∧
    effectiveKindInfo none = "video" := by
  refine ⟨fun fs => ?_, ?_, ?_, rfl, rfl⟩ <;>
    simp [buildFormats, downloadExtension, downloadContentType, ht]

/-- Witness for C10: the selector "hd" is handled exactly as the video
kind. -/
theorem c10_kind_fallback_witness :
    buildFormats "hd" upEx.formats = .video (videoCatalogFormats upEx.formats) ∧
    downloadExtension "hd" = "mp4" ∧
    downloadContentType "hd" = "video/mp4" := by
  have h := c10_kind_fallback "hd" (by decide)
  exact ⟨h.1 upEx.formats, h.2.1, h.2.2.1⟩

/-! ### Teardown on disconnect (claim C5, code bug exhibit) -/

/-- Claim C5 fails on the code: in the direct passthrough branch the
upstream stream is opened but held only in a local `const stream`, never in
the `videoStream` cleanup variable, so the client-disconnect handler (and
the catch-block cleanup) destroys nothing and the stream handle outlives
the request; by contrast the mux branch registers both streams and the
transcoder and tears all of them down. -/
theorem c5_direct_stream_leak :
    (runPath .direct).openedStreams = [0] ∧
    closeHandlerDestroys (runPath .direct).vars = [] ∧
    closeHandlerKills (runPath .direct).vars = [] ∧
    (runPath .mux).openedStreams = [0, 1] ∧
    closeHandlerDestroys (runPath .mux).vars = [0, 1] ∧
    closeHandlerKills (runPath .mux).vars = [100] ∧
    (runPath .audioConv).openedStreams = [0] ∧
    closeHandlerDestroys (runPath .audioConv).vars = [0] ∧
    closeHandlerKills (runPath .audioConv).vars = [100] := by
  decide


end YTServer
